import Mathlib

/-!
Verification of the GenomeX CRISPR guide-candidate pipeline
(`dashboard/views.py`) against its natural-language specification.

Modelling conventions:
* DNA strings and Python `str` values are modelled as `List Char`.
* Python floats are modelled as exact rationals (`ℚ`).
* The pandas `DataFrame` is modelled as a list of records.
* The externally loaded scoring artifact (`model.predict`) and the
  pandas `sort_values` ranking are opaque to the repository, so the
  pipeline is parameterised over them.
-/

namespace GenomeX

/-- A parsed FASTA record (`rec` in `home`): an identifier and its bases. -/
structure Sequence where
  id : List Char
  bases : List Char
deriving DecidableEq, Repr

/-- Python slice `s[a:b]` for `0 ≤ a ≤ b` (clamped at the end of the list). -/
def pySlice (s : List Char) (a b : Nat) : List Char := (s.drop a).take (b - a)

/-- Python `str.upper()` restricted to the ASCII range used by DNA data. -/
def upper (s : List Char) : List Char := s.map Char.toUpper

/-- Python `pam.endswith("GG")`. -/
def endsGG (p : List Char) : Bool := List.isSuffixOf [ 'G', 'G' ] p

/-- The candidate dictionary built in `home`:
`{'id': rec.id, 'pos': i, 'seq': seq[i:i+20], 'pam': pam}`. -/
structure Candidate where
  id : List Char
  pos : Nat
  seq : List Char
  pam : List Char
deriving DecidableEq, Repr

/-- Inner scan loop of `home`:
`for i in range(len(seq) - 23): pam = seq[i+20:i+23]; if pam.endswith("GG"): append`. -/
def scanOne (r : Sequence) : List Candidate :=
  let s := upper r.bases
  (List.range (s.length - 23)).filterMap (fun i =>
    let pam := pySlice s (i + 20) (i + 23)
    if endsGG pam then some ⟨r.id, i, pySlice s i (i + 20), pam⟩ else none)

/-- Outer loop of `home` over all parsed records, appending candidates of each
record in turn to one shared list. -/
def scanCandidates (records : List Sequence) : List Candidate :=
  records.foldl (fun acc r => acc ++ scanOne r) []

/-- `calculate_gc`: `(seq.count("G") + seq.count("C")) / len(seq) * 100`. -/
def calculate_gc (seq : List Char) : ℚ :=
  (((seq.count 'G' : ℚ)) + (seq.count 'C' : ℚ)) / (seq.length : ℚ) * 100

/-- Per-base lookup in `get_molecular_weight`:
`weights = {'A': 313.2, 'T': 304.2, 'G': 329.2, 'C': 289.2}`, default 0. -/
def baseWeight (b : Char) : ℚ :=
  if b = 'A' then 313.2 else if b = 'T' then 304.2
  else if b = 'G' then 329.2 else if b = 'C' then 289.2 else 0

/-- `get_molecular_weight`: `sum(weights.get(base, 0) for base in seq)`. -/
def get_molecular_weight (seq : List Char) : ℚ := (seq.map baseWeight).sum

/-- Per-base lookup in `encode_sequence`: `mapping = {'A':1, 'T':2, 'G':3, 'C':4}`,
default 0. -/
def baseCode (b : Char) : ℚ :=
  if b = 'A' then 1 else if b = 'T' then 2
  else if b = 'G' then 3 else if b = 'C' then 4 else 0

/-- Body of the `encode_sequence` loop for one window:
`[gc, mw] + num_seq`. -/
def encodeOne (seq : List Char) : List ℚ :=
  [calculate_gc seq, get_molecular_weight seq] ++ seq.map baseCode

/-- `encode_sequence`: the feature encoder applied to every window. -/
def encode_sequence (seq_list : List (List Char)) : List (List ℚ) :=
  seq_list.map encodeOne

/-- numpy round-half-to-even of an exact rational, as an integer.  This is the
rounding rule used by pandas `Series.round`; away from exact midpoints it
coincides with rounding to the nearest integer. -/
def roundHalfEven (x : ℚ) : ℤ :=
  if ((⌊x + 1 / 2⌋ : ℚ) = x + 1 / 2 ∧ ⌊x + 1 / 2⌋ % 2 ≠ 0) then ⌊x + 1 / 2⌋ - 1
  else ⌊x + 1 / 2⌋

/-- pandas `Series.round(n)`: round half-to-even at `n` decimal digits. -/
def pandasRound (n : Nat) (x : ℚ) : ℚ :=
  (roundHalfEven (x * 10 ^ n) : ℚ) / 10 ^ n

/-- A row of the scored DataFrame: the candidate columns plus the two derived
columns `Predicted_Efficiency` and `GC_Content` attached in `home`. -/
structure Scored where
  id : List Char
  pos : Nat
  seq : List Char
  pam : List Char
  Predicted_Efficiency : ℚ
  GC_Content : ℚ
deriving DecidableEq, Repr

/-- The two column assignments in `home`:
`df['Predicted_Efficiency'] = model.predict(encode_sequence(df['seq']))` and
`df['GC_Content'] = df['seq'].apply(calculate_gc)`.  The externally loaded
model is an opaque per-row scoring function `predict`. -/
def scoreCandidates (predict : List ℚ → ℚ) (cs : List Candidate) : List Scored :=
  cs.map (fun c =>
    ⟨c.id, c.pos, c.seq, c.pam, predict (encodeOne c.seq), calculate_gc c.seq⟩)

/-- The rounding applied to the display copy `display_df`:
`GC_Content.round(1)` and `Predicted_Efficiency.round(4)`. -/
def roundScored (c : Scored) : Scored :=
  { c with GC_Content := pandasRound 1 c.GC_Content,
           Predicted_Efficiency := pandasRound 4 c.Predicted_Efficiency }

/-- The boolean mask used on `display_df` in `home`:
`(Predicted_Efficiency > 0.80) & (GC_Content >= 40) & (GC_Content <= 60)`.
Note that in the source it is applied to the already rounded display copy. -/
def displayFilter (c : Scored) : Bool :=
  decide ((0.80 : ℚ) < c.Predicted_Efficiency) &&
    (decide ((40 : ℚ) ≤ c.GC_Content) && decide (c.GC_Content ≤ (60 : ℚ)))

/-- `top_candidates = display_df[mask].head(20)`: the rounded rows passing the
mask, truncated to the first 20. -/
def topCandidates (ranked : List Scored) : List Scored :=
  ((ranked.map roundScored).filter displayFilter).take 20

/-- The `'qualified'` value rendered by `home`: `len(top_candidates)`. -/
def qualifiedCount (ranked : List Scored) : Nat := (topCandidates ranked).length

/-- The observable result of a POST to `home`: either `index.html` rendered
with an error message, or `dashboard.html` with its context values. -/
inductive Outcome where
  | errorPage (msg : List Char)
  | dashboard (candidates : List Scored) (total : Nat) (qualified : Nat)
deriving DecidableEq

/-- The error message rendered when the candidate list is empty. -/
def noTargetsMsg : List Char :=
  "Invalid DNA Data. No CRISPR targets (NGG) found.".data

/-- The error message rendered when the model file is absent (the quotes the
source puts around the file name are omitted here). -/
def modelMissingMsg : List Char :=
  "Model Missing! Place genome_x_xgboost.model in root folder.".data

/-- The `home` controller after FASTA parsing, as a function of the parsed
records.  `modelAvailable` models `os.path.exists(MODEL_PATH)`; `rank` models
the external `df.sort_values(by='Predicted_Efficiency', ascending=False)`
call and `predict` the loaded scoring artifact, both opaque library calls. -/
def home (records : List Sequence) (modelAvailable : Bool)
    (rank : List Scored → List Scored) (predict : List ℚ → ℚ) : Outcome :=
  let candidates := scanCandidates records
  if candidates.isEmpty then .errorPage noTargetsMsg
  else if !modelAvailable then .errorPage modelMissingMsg
  else
    let ranked := rank (scoreCandidates predict candidates)
    .dashboard (topCandidates ranked) ranked.length (qualifiedCount ranked)

/-- The observable result of the `download_csv` view. -/
inductive DownloadResponse where
  | attachment (filename : List Char) (body : List Char)
  | plain (body : List Char)
deriving DecidableEq

/-- `download_csv`: serves the session CSV as an attachment when it is truthy
(Python: present and nonempty), else a plain "No data available." response. -/
def download_csv (sessionCsv : Option (List Char)) : DownloadResponse :=
  match sessionCsv with
  | some s =>
    if s.isEmpty then .plain ("No data available.".data)
    else .attachment ("genome_x_report.csv".data) s
  | none => .plain ("No data available.".data)

/-! ### The tabular export

`home` stores `df.to_csv(index=False)` in the session before any rounding,
i.e. the full ranked set with full-precision values: a header line followed
by one comma-separated line per row, each line terminated by a newline.
Scores are written in decimal notation; since every Python float is a dyadic
rational, its exact value has a finite decimal expansion, rendered here with
a fixed number `k` of fractional digits. -/

/-- Decimal digit to character. -/
def digitChar (d : Nat) : Char :=
  if d = 0 then '0' else if d = 1 then '1' else if d = 2 then '2'
  else if d = 3 then '3' else if d = 4 then '4' else if d = 5 then '5'
  else if d = 6 then '6' else if d = 7 then '7' else if d = 8 then '8'
  else if d = 9 then '9' else '?'

/-- Character to decimal digit (inverse of `digitChar` on digits). -/
def digitVal (c : Char) : Nat :=
  if c = '0' then 0 else if c = '1' then 1 else if c = '2' then 2
  else if c = '3' then 3 else if c = '4' then 4 else if c = '5' then 5
  else if c = '6' then 6 else if c = '7' then 7 else if c = '8' then 8
  else if c = '9' then 9 else 0

/-- Little-endian base-10 digits of `n`; the first argument is structural
fuel (any fuel `≥ n` yields all digits). -/
def natDigitsAux : Nat → Nat → List Nat
  | 0, _ => []
  | fuel + 1, n => if n = 0 then [] else n % 10 :: natDigitsAux fuel (n / 10)

/-- Little-endian base-10 digits of `n` (empty for 0). -/
def natDigits (n : Nat) : List Nat := natDigitsAux n n

/-- Decimal rendering of a natural number. -/
def natStr (n : Nat) : List Char :=
  if n = 0 then [ '0' ] else ((natDigits n).reverse).map digitChar

/-- Parse a big-endian decimal digit string. -/
def parseNat (cs : List Char) : Nat :=
  cs.foldl (fun a c => a * 10 + digitVal c) 0

/-- Exactly `k` little-endian base-10 digits of `m` (the low `k` digits). -/
def fracDigits : Nat → Nat → List Nat
  | 0, _ => []
  | k + 1, m => m % 10 :: fracDigits k (m / 10)

/-- The `k` fractional digit characters for numerator `m`, most significant
first. -/
def fracStr (k m : Nat) : List Char := ((fracDigits k m).reverse).map digitChar

/-- Decimal rendering of a nonnegative rational with `k` fractional digits:
exact whenever `x * 10 ^ k` is an integer. -/
def decStr (k : Nat) (x : ℚ) : List Char :=
  natStr ((x * 10 ^ k).num.toNat / 10 ^ k) ++
    '.' :: fracStr k ((x * 10 ^ k).num.toNat % 10 ^ k)

/-- Parse a decimal number with one decimal point. -/
def parseDec (cs : List Char) : Option ℚ :=
  match cs.splitOn '.' with
  | [ip, fp] => some ((parseNat ip : ℚ) + (parseNat fp : ℚ) / 10 ^ fp.length)
  | _ => none

/-- The header line written by `df.to_csv(index=False)` for the ranked
DataFrame, in its exact column order. -/
def headerChars : List Char :=
  "id,pos,seq,pam,Predicted_Efficiency,GC_Content".data

/-- The six cells of one exported row, in column order. -/
def rowFields (k : Nat) (r : Scored) : List (List Char) :=
  [r.id, natStr r.pos, r.seq, r.pam,
    decStr k r.Predicted_Efficiency, decStr k r.GC_Content]

/-- One exported row: its cells joined by commas. -/
def rowChars (k : Nat) (r : Scored) : List Char :=
  [ ',' ].intercalate (rowFields k r)

/-- `df.to_csv(index=False)`: the header line and every row line, each
terminated by a newline. -/
def toCsvChars (k : Nat) (rows : List Scored) : List Char :=
  ((headerChars :: rows.map (rowChars k)).map (fun l => l ++ [ '\n' ])).flatten

/-- Re-parse one row line of the export. -/
def parseRow (line : List Char) : Option Scored :=
  match line.splitOn ',' with
  | [idf, posf, seqf, pamf, efff, gcf] =>
    match parseDec efff, parseDec gcf with
    | some e, some g => some ⟨idf, parseNat posf, seqf, pamf, e, g⟩
    | _, _ => none
  | _ => none

/-- Re-parse a list of row lines. -/
def parseRows : List (List Char) → Option (List Scored)
  | [] => some []
  | l :: ls =>
    match parseRow l, parseRows ls with
    | some r, some rs => some (r :: rs)
    | _, _ => none

/-- Re-parse a whole export: check the header line, require a trailing
newline, and parse every row line. -/
def parseCsv (cs : List Char) : Option (List Scored) :=
  match cs.splitOn '\n' with
  | header :: rest =>
    if header = headerChars then
      match rest.getLast? with
      | some [] => parseRows rest.dropLast
      | _ => none
    else none
  | [] => none

/-- A cell is CSV-safe when it contains neither separator character. -/
def csvSafe (l : List Char) : Prop := ',' ∉ l ∧ '\n' ∉ l

instance (l : List Char) : Decidable (csvSafe l) := by
  unfold csvSafe; infer_instance

/-- A row is exportable at precision `k` when its text cells are CSV-safe and
its two scores are nonnegative with exact `k`-digit decimal expansions (every
nonnegative Python float satisfies this for a suitable `k`). -/
def exportable (k : Nat) (r : Scored) : Prop :=
  csvSafe r.id ∧ csvSafe r.seq ∧ csvSafe r.pam ∧
    0 ≤ r.Predicted_Efficiency ∧ (r.Predicted_Efficiency * 10 ^ k).den = 1 ∧
    0 ≤ r.GC_Content ∧ (r.GC_Content * 10 ^ k).den = 1

instance (k : Nat) (r : Scored) : Decidable (exportable k r) := by
  unfold exportable; infer_instance

/-! ### Correctness of the decimal rendering -/

/-- Value of a little-endian digit list. -/
def digitsVal : List Nat → Nat
  | [] => 0
  | d :: ds => d + 10 * digitsVal ds

theorem digitsVal_natDigitsAux :
    ∀ fuel n, n ≤ fuel → digitsVal (natDigitsAux fuel n) = n := by
  intro fuel
  induction fuel with
  | zero => intro n hn; interval_cases n; simp [natDigitsAux, digitsVal]
  | succ fuel ih =>
    intro n hn
    by_cases h0 : n = 0
    · simp [natDigitsAux, h0, digitsVal]
    · have hdiv : n / 10 ≤ fuel := by
        have : n / 10 < n := Nat.div_lt_self (Nat.pos_of_ne_zero h0) (by omega)
        omega
      simp only [natDigitsAux, h0, if_false, digitsVal, ih (n / 10) hdiv]
      omega

theorem natDigitsAux_lt10 :
    ∀ fuel n d, d ∈ natDigitsAux fuel n → d < 10 := by
  intro fuel
  induction fuel with
  | zero => intro n d hd; simp [natDigitsAux] at hd
  | succ fuel ih =>
    intro n d hd
    by_cases h0 : n = 0
    · simp [natDigitsAux, h0] at hd
    · simp only [natDigitsAux, h0, if_false, List.mem_cons] at hd
      rcases hd with h | h
      · omega
      · exact ih _ _ h

theorem fracDigits_length : ∀ k m, (fracDigits k m).length = k := by
  intro k
  induction k with
  | zero => intro m; rfl
  | succ k ih => intro m; simp [fracDigits, ih]

theorem digitsVal_fracDigits : ∀ k m, digitsVal (fracDigits k m) = m % 10 ^ k := by
  intro k
  induction k with
  | zero => intro m; simp [fracDigits, digitsVal, Nat.mod_one]
  | succ k ih =>
    intro m
    simp only [fracDigits, digitsVal, ih]
    rw [pow_succ, mul_comm (10 ^ k) 10, Nat.mod_mul]

theorem fracDigits_lt10 : ∀ k m d, d ∈ fracDigits k m → d < 10 := by
  intro k
  induction k with
  | zero => intro m d hd; simp [fracDigits] at hd
  | succ k ih =>
    intro m d hd
    simp only [fracDigits, List.mem_cons] at hd
    rcases hd with h | h
    · omega
    · exact ih _ _ h

theorem digitVal_digitChar (d : Nat) (h : d < 10) : digitVal (digitChar d) = d := by
  interval_cases d <;> decide

theorem parseNat_concat (A : List Char) (c : Char) :
    parseNat (A ++ [c]) = parseNat A * 10 + digitVal c := by
  simp [parseNat, List.foldl_append]

theorem parseNat_rev_digits :
    ∀ l : List Nat, (∀ d ∈ l, d < 10) →
      parseNat ((l.reverse).map digitChar) = digitsVal l := by
  intro l
  induction l with
  | nil => intro _; rfl
  | cons d ds ih =>
    intro h
    have hmap : ((d :: ds).reverse).map digitChar =
        ((ds.reverse).map digitChar) ++ [digitChar d] := by simp
    rw [hmap, parseNat_concat, ih (fun x hx => h x (List.mem_cons_of_mem d hx)),
      digitVal_digitChar d (h d (List.mem_cons_self d ds))]
    simp [digitsVal]
    ring

theorem parseNat_natStr (n : Nat) : parseNat (natStr n) = n := by
  by_cases h0 : n = 0
  · simp [natStr, h0, parseNat, digitVal]
  · rw [natStr, if_neg h0, natDigits, parseNat_rev_digits _ (natDigitsAux_lt10 n n),
      digitsVal_natDigitsAux n n le_rfl]

theorem parseNat_fracStr (k m : Nat) : parseNat (fracStr k m) = m % 10 ^ k := by
  rw [fracStr, parseNat_rev_digits _ (fracDigits_lt10 k m), digitsVal_fracDigits]

theorem fracStr_length (k m : Nat) : (fracStr k m).length = k := by
  simp [fracStr, fracDigits_length]

theorem digitChar_safe (d : Nat) :
    digitChar d ≠ ',' ∧ digitChar d ≠ '\n' ∧ digitChar d ≠ '.' := by
  unfold digitChar
  split_ifs <;> exact ⟨by decide, by decide, by decide⟩

theorem mem_natStr (n : Nat) (x : Char) (h : x ∈ natStr n) : ∃ d, x = digitChar d := by
  rw [natStr] at h
  split_ifs at h
  · simp at h; exact ⟨0, by rw [h]; rfl⟩
  · simp only [List.mem_map] at h
    obtain ⟨d, _, hd⟩ := h
    exact ⟨d, hd.symm⟩

theorem mem_fracStr (k m : Nat) (x : Char) (h : x ∈ fracStr k m) :
    ∃ d, x = digitChar d := by
  simp only [fracStr, List.mem_map] at h
  obtain ⟨d, _, hd⟩ := h
  exact ⟨d, hd.symm⟩

theorem mem_decStr (k : Nat) (q : ℚ) (x : Char) (h : x ∈ decStr k q) :
    (∃ d, x = digitChar d) ∨ x = '.' := by
  rw [decStr] at h
  rcases List.mem_append.1 h with h' | h'
  · exact Or.inl (mem_natStr _ _ h')
  · rcases List.mem_cons.1 h' with h'' | h''
    · exact Or.inr h''
    · exact Or.inl (mem_fracStr _ _ _ h'')

/-! ### Joining and splitting CSV cells and lines -/

theorem intercalate_cons (c : Char) (a : List Char) {t : List (List Char)}
    (ht : t ≠ []) : [c].intercalate (a :: t) = a ++ c :: [c].intercalate t := by
  cases t with
  | nil => exact absurd rfl ht
  | cons b t' =>
    simp [List.intercalate, List.intersperse_cons_cons, List.flatten]

theorem mem_intercalate (x c : Char) :
    ∀ ls : List (List Char), x ∈ [c].intercalate ls → x = c ∨ ∃ l ∈ ls, x ∈ l := by
  intro ls
  induction ls with
  | nil => intro h; simp [List.intercalate, List.flatten] at h
  | cons a t ih =>
    intro h
    cases t with
    | nil =>
      simp only [List.intercalate, List.intersperse_singleton, List.flatten,
        List.append_nil] at h
      exact Or.inr ⟨a, List.mem_cons_self a [], h⟩
    | cons b t' =>
      rw [intercalate_cons c a (by simp)] at h
      rcases List.mem_append.1 h with h' | h'
      · exact Or.inr ⟨a, List.mem_cons_self _ _, h'⟩
      · rcases List.mem_cons.1 h' with h'' | h''
        · exact Or.inl h''
        · rcases ih h'' with h3 | ⟨l, hl, hx⟩
          · exact Or.inl h3
          · exact Or.inr ⟨l, List.mem_cons_of_mem a hl, hx⟩

theorem flatten_terminated (c : Char) :
    ∀ ls : List (List Char),
      (ls.map (fun l => l ++ [c])).flatten = [c].intercalate (ls ++ [[]]) := by
  intro ls
  induction ls with
  | nil => simp [List.intercalate, List.flatten]
  | cons a t ih =>
    have hne : t ++ [([] : List Char)] ≠ [] := by simp
    simp only [List.map_cons, List.flatten_cons, ih, List.cons_append]
    rw [intercalate_cons c a hne]
    simp

/-! ### The decimal rendering round-trips -/

theorem parseDec_decStr (k : Nat) (x : ℚ) (hx : 0 ≤ x)
    (hden : (x * 10 ^ k).den = 1) : parseDec (decStr k x) = some x := by
  set n : Nat := (x * 10 ^ k).num.toNat with hn
  have hpow : ((10 : ℚ) ^ k) ≠ 0 := by positivity
  have hprod : 0 ≤ x * 10 ^ k := by positivity
  have hxn : x * 10 ^ k = (n : ℚ) := by
    have h1 : ((n : ℤ) : ℚ) = ((x * 10 ^ k).num : ℚ) := by
      rw [hn, Int.toNat_of_nonneg (Rat.num_nonneg.2 hprod)]
    rw [(Rat.den_eq_one_iff _).1 hden] at h1
    rw [← h1]
    push_cast
    ring
  have hx' : x = (n : ℚ) / 10 ^ k := by
    rw [← hxn]; field_simp
  have hsplit : (decStr k x).splitOn '.' =
      [natStr (n / 10 ^ k), fracStr k (n % 10 ^ k)] := by
    have heq : decStr k x =
        [ '.' ].intercalate [natStr (n / 10 ^ k), fracStr k (n % 10 ^ k)] := by
      rw [decStr, intercalate_cons '.' _ (by simp)]
      simp [List.intercalate, List.intersperse_singleton]
    rw [heq]
    refine List.splitOn_intercalate _ '.' ?_ (by simp)
    intro l hl
    rcases List.mem_cons.1 hl with h | h
    · subst h
      intro hmem
      obtain ⟨d, hd⟩ := mem_natStr _ _ hmem
      exact (digitChar_safe d).2.2 hd.symm
    · rcases List.mem_cons.1 h with h' | h'
      · subst h'
        intro hmem
        obtain ⟨d, hd⟩ := mem_fracStr _ _ _ hmem
        exact (digitChar_safe d).2.2 hd.symm
      · simp at h'
  rw [parseDec, hsplit]
  simp only [parseNat_natStr, parseNat_fracStr, fracStr_length]
  have hmod : n % 10 ^ k % 10 ^ k = n % 10 ^ k := Nat.mod_mod_of_dvd n dvd_rfl
  rw [hmod]
  congr 1
  have hdm : (n : ℚ) = ((n / 10 ^ k * 10 ^ k + n % 10 ^ k : Nat) : ℚ) := by
    rw [Nat.div_add_mod' n (10 ^ k)]
  rw [hx', hdm]
  push_cast
  field_simp

theorem mem_rowFields_safe (k : Nat) (r : Scored) (h : exportable k r) :
    ∀ l ∈ rowFields k r, ',' ∉ l ∧ '\n' ∉ l := by
  obtain ⟨hid, hseq, hpam, _, _, _, _⟩ := h
  have hnat : ∀ n : Nat, ',' ∉ natStr n ∧ '\n' ∉ natStr n := by
    intro n
    constructor <;> intro hmem <;>
      obtain ⟨d, hd⟩ := mem_natStr _ _ hmem
    · exact (digitChar_safe d).1 hd.symm
    · exact (digitChar_safe d).2.1 hd.symm
  have hdec : ∀ q : ℚ, ',' ∉ decStr k q ∧ '\n' ∉ decStr k q := by
    intro q
    constructor <;> intro hmem <;> rcases mem_decStr _ _ _ hmem with ⟨d, hd⟩ | hd
    · exact (digitChar_safe d).1 hd.symm
    · exact absurd hd (by decide)
    · exact (digitChar_safe d).2.1 hd.symm
    · exact absurd hd (by decide)
  intro l hl
  simp only [rowFields, List.mem_cons, List.not_mem_nil, or_false] at hl
  rcases hl with rfl | rfl | rfl | rfl | rfl | rfl
  · exact hid
  · exact hnat r.pos
  · exact hseq
  · exact hpam
  · exact hdec r.Predicted_Efficiency
  · exact hdec r.GC_Content

theorem splitOn_rowChars (k : Nat) (r : Scored) (h : exportable k r) :
    (rowChars k r).splitOn ',' = rowFields k r := by
  rw [rowChars]
  exact List.splitOn_intercalate _ ','
    (fun l hl => (mem_rowFields_safe k r h l hl).1) (by simp [rowFields])

theorem parseRow_rowChars (k : Nat) (r : Scored) (h : exportable k r) :
    parseRow (rowChars k r) = some r := by
  obtain ⟨_, _, _, heff0, heffd, hgc0, hgcd⟩ := id h
  rw [parseRow, splitOn_rowChars k r h, rowFields]
  simp only [parseDec_decStr k _ heff0 heffd, parseDec_decStr k _ hgc0 hgcd,
    parseNat_natStr]

theorem rowChars_no_newline (k : Nat) (r : Scored) (h : exportable k r) :
    '\n' ∉ rowChars k r := by
  intro hmem
  rcases mem_intercalate '\n' ',' _ hmem with h1 | ⟨l, hl, hx⟩
  · exact absurd h1 (by decide)
  · exact (mem_rowFields_safe k r h l hl).2 hx

theorem parseRows_map (k : Nat) :
    ∀ rows : List Scored, (∀ r ∈ rows, exportable k r) →
      parseRows (rows.map (rowChars k)) = some rows := by
  intro rows
  induction rows with
  | nil => intro _; rfl
  | cons r rs ih =>
    intro h
    rw [List.map_cons, parseRows, parseRow_rowChars k r (h r (List.mem_cons_self r rs)),
      ih (fun x hx => h x (List.mem_cons_of_mem r hx))]

theorem splitOn_toCsvChars (k : Nat) (rows : List Scored)
    (h : ∀ r ∈ rows, exportable k r) :
    (toCsvChars k rows).splitOn '\n' =
      (headerChars :: rows.map (rowChars k)) ++ [[]] := by
  rw [toCsvChars, flatten_terminated]
  refine List.splitOn_intercalate _ '\n' ?_ (by simp)
  intro l hl
  rcases List.mem_append.1 hl with h1 | h1
  · rcases List.mem_cons.1 h1 with rfl | h2
    · decide
    · obtain ⟨r, hr, rfl⟩ := List.mem_map.1 h2
      exact rowChars_no_newline k r (h r hr)
  · simp only [List.mem_singleton] at h1
    subst h1
    exact List.not_mem_nil '\n'

theorem parseCsv_toCsvChars (k : Nat) (rows : List Scored)
    (h : ∀ r ∈ rows, exportable k r) :
    parseCsv (toCsvChars k rows) = some rows := by
  rw [parseCsv, splitOn_toCsvChars k rows h, List.cons_append]
  simp only [if_pos rfl]
  rw [List.getLast?_concat, List.dropLast_concat]
  exact parseRows_map k rows h

theorem toCsvChars_eq_header_append (k : Nat) (rows : List Scored) :
    toCsvChars k rows = headerChars ++ '\n' ::
      ((rows.map (rowChars k)).map (fun l => l ++ [ '\n' ])).flatten := by
  rw [toCsvChars]
  simp

theorem toCsvChars_ne_nil (k : Nat) (rows : List Scored) :
    toCsvChars k rows ≠ [] := by
  rw [toCsvChars_eq_header_append]
  simp [headerChars]

/-! ### Structure of the scan -/

theorem pySlice_length (s : List Char) (a b : Nat) :
    (pySlice s a b).length = min (b - a) (s.length - a) := by
  simp [pySlice]

theorem upper_length (s : List Char) : (upper s).length = s.length := by
  simp [upper]

theorem mapPos_scanOne (r : Sequence) :
    (scanOne r).map Candidate.pos =
      (List.range ((upper r.bases).length - 23)).filter
        (fun i => endsGG (pySlice (upper r.bases) (i + 20) (i + 23))) := by
  simp only [scanOne]
  generalize upper r.bases = s
  generalize List.range (s.length - 23) = l
  induction l with
  | nil => rfl
  | cons i t ih =>
    by_cases hc : endsGG (pySlice s (i + 20) (i + 23))
    · simp only [List.filterMap_cons, List.filter_cons, hc, if_true, List.map_cons, ih]
    · simp only [List.filterMap_cons, List.filter_cons, hc, if_false]
      exact ih

theorem pos_mem_scanOne (r : Sequence) (i : Nat) :
    i ∈ (scanOne r).map Candidate.pos ↔
      i < r.bases.length - 23 ∧
        endsGG (pySlice (upper r.bases) (i + 20) (i + 23)) = true := by
  rw [mapPos_scanOne, List.mem_filter, List.mem_range, upper_length]

theorem mem_scanOne (r : Sequence) (c : Candidate) (h : c ∈ scanOne r) :
    ∃ i, i < r.bases.length - 23 ∧
      endsGG (pySlice (upper r.bases) (i + 20) (i + 23)) = true ∧
      c = ⟨r.id, i, pySlice (upper r.bases) i (i + 20),
        pySlice (upper r.bases) (i + 20) (i + 23)⟩ := by
  simp only [scanOne, List.mem_filterMap, List.mem_range] at h
  obtain ⟨i, hi, hf⟩ := h
  refine ⟨i, ?_, ?_, ?_⟩
  · rwa [upper_length] at hi
  · by_contra hc
    rw [if_neg hc] at hf
    exact Option.noConfusion hf
  · by_cases hc : endsGG (pySlice (upper r.bases) (i + 20) (i + 23)) = true
    · rw [if_pos hc] at hf
      exact (Option.some.injEq _ _ ▸ hf).symm
    · rw [if_neg hc] at hf
      exact absurd hf (Option.noConfusion)

theorem scanOne_pairwise_pos (r : Sequence) :
    (scanOne r).Pairwise (fun a b => a.pos < b.pos) := by
  have h1 : ((scanOne r).map Candidate.pos).Pairwise (· < ·) := by
    rw [mapPos_scanOne]
    exact List.Pairwise.sublist (List.filter_sublist _) (List.pairwise_lt_range _)
  exact (List.pairwise_map).1 h1

theorem scanCandidates_eq_flatten (records : List Sequence) :
    scanCandidates records = (records.map scanOne).flatten := by
  rw [scanCandidates]
  suffices h : ∀ acc, records.foldl (fun acc r => acc ++ scanOne r) acc =
      acc ++ (records.map scanOne).flatten by
    simpa using h []
  induction records with
  | nil => intro acc; simp
  | cons r t ih => intro acc; simp [ih]

/-! ### Evaluating the rounding on concrete values -/

theorem pandasRound_eq_of_ne (n : Nat) (x : ℚ) (r : ℤ)
    (h1 : ⌊x * 10 ^ n + 1 / 2⌋ = r) (h2 : (r : ℚ) ≠ x * 10 ^ n + 1 / 2) :
    pandasRound n x = (r : ℚ) / 10 ^ n := by
  have hcond : ¬((r : ℚ) = x * 10 ^ n + 1 / 2 ∧ r % 2 ≠ 0) := fun hc => h2 hc.1
  simp only [pandasRound, roundHalfEven, h1, if_neg hcond]

theorem pandasRound4_09 : pandasRound 4 (0.9 : ℚ) = 0.9 := by
  rw [pandasRound_eq_of_ne 4 0.9 9000 (by norm_num) (by norm_num)]
  norm_num

/-- The scored row used in concrete checks below: both values already at
their rounded form, efficiency 0.9 and GC 50, so it qualifies. -/
def sampleScored : Scored := ⟨"r".data, 0, [], [], 0.9, 50⟩

theorem roundScored_sample : roundScored sampleScored = sampleScored := by
  rw [roundScored, sampleScored]
  rw [pandasRound_eq_of_ne 1 50 500 (by norm_num) (by norm_num)]
  rw [pandasRound4_09]
  norm_num

theorem displayFilter_sample : displayFilter sampleScored = true := by
  rw [displayFilter, sampleScored]
  simp only [Bool.and_eq_true, decide_eq_true_eq]
  norm_num

theorem filter_replicate_sample (n : Nat) :
    ((List.replicate n sampleScored).map roundScored).filter displayFilter =
      List.replicate n sampleScored := by
  rw [List.map_replicate, roundScored_sample]
  refine List.filter_eq_self.2 ?_
  intro a ha
  rw [List.eq_of_mem_replicate ha, displayFilter_sample]

/-! ### The claims -/

/-- Claim C1 is false of the code: the scan loop is
`for i in range(len(seq) - 23)`, which examines `len - 23` positions
(`i ∈ [0, len-24]`), not `len - 23 + 1`.  On this 23-base sequence whose
window at offset 20 ends in "GG", the claim predicts one candidate at
position 0, but the scan examines no position at all and yields none. -/
theorem claim1_counterexample :
    ("AAAAAAAAAAAAAAAAAAAATGG".data).length = 23 ∧
    endsGG (pySlice (upper ("AAAAAAAAAAAAAAAAAAAATGG".data)) 20 23) = true ∧
    scanOne ⟨"r".data, "AAAAAAAAAAAAAAAAAAAATGG".data⟩ = [] := by
  refine ⟨by decide, by decide, by decide⟩

/-- Claim C1 (amended): the scan examines exactly `len - 23` window
positions, one for every `i ∈ [0, len - 24]`; a Candidate is emitted at
position `i` exactly when the 3-character slice at offset `i+20` ends in
"GG"; and every sequence of length ≤ 23 (in particular every sequence
shorter than 23 bases) yields zero candidates without error. -/
theorem claim1_scan_positions (idv s : List Char) (i : Nat) :
    (i ∈ (scanOne ⟨idv, s⟩).map Candidate.pos ↔
      i < s.length - 23 ∧ endsGG (pySlice (upper s) (i + 20) (i + 23)) = true) ∧
    (s.length ≤ 23 → scanOne ⟨idv, s⟩ = []) := by
  constructor
  · exact pos_mem_scanOne ⟨idv, s⟩ i
  · intro hlen
    have h0 : (upper s).length - 23 = 0 := by rw [upper_length]; omega
    simp [scanOne, h0]

theorem claim1_scan_positions_witness :
    scanOne ⟨"r".data, "ACGT".data⟩ = [] :=
  (claim1_scan_positions ("r".data) ("ACGT".data) 0).2 (by decide)

/-- Claim C7: every emitted Candidate has a window of length exactly 20 and
a motif of length exactly 3 ending in "GG"; within one sequence the
positions are strictly increasing; and the combined candidate list is the
per-record lists concatenated in input order. -/
theorem claim7_candidate_invariants (records : List Sequence) :
    (∀ c ∈ scanCandidates records,
      c.seq.length = 20 ∧ c.pam.length = 3 ∧ endsGG c.pam = true) ∧
    (∀ r : Sequence, (scanOne r).Pairwise (fun a b => a.pos < b.pos)) ∧
    scanCandidates records = (records.map scanOne).flatten := by
  refine ⟨?_, fun r => scanOne_pairwise_pos r, scanCandidates_eq_flatten records⟩
  intro c hc
  rw [scanCandidates_eq_flatten, List.mem_flatten] at hc
  obtain ⟨l, hl, hcl⟩ := hc
  obtain ⟨r, _, rfl⟩ := List.mem_map.1 hl
  obtain ⟨i, hi, hgg, rfl⟩ := mem_scanOne r c hcl
  refine ⟨?_, ?_, hgg⟩
  · rw [pySlice_length, upper_length]
    omega
  · rw [pySlice_length, upper_length]
    omega

theorem claim7_candidate_invariants_witness :
    (⟨"r".data, 0, "AAAAAAAAAAAAAAAAAAAA".data, "TGG".data⟩ : Candidate).seq.length = 20 ∧
    (⟨"r".data, 0, "AAAAAAAAAAAAAAAAAAAA".data, "TGG".data⟩ : Candidate).pam.length = 3 ∧
    endsGG (⟨"r".data, 0, "AAAAAAAAAAAAAAAAAAAA".data, "TGG".data⟩ : Candidate).pam = true :=
  (claim7_candidate_invariants
      [⟨"r".data, "AAAAAAAAAAAAAAAAAAAATGGTTTTTTTTTTTTTTTTTTTT".data⟩]).1
    ⟨"r".data, 0, "AAAAAAAAAAAAAAAAAAAA".data, "TGG".data⟩ (by decide)

/-- Claim C5 is false of the code: an input with no parsed records takes the
same `not candidates` branch as a parseable input with zero PAM windows, and
is reported with exactly the same no-targets error; there is no distinct
parse-error condition. -/
theorem claim5_counterexample :
    home [] true id (fun _ => 0) = Outcome.errorPage noTargetsMsg ∧
    home [⟨"r".data, "AAAAAAAAAAAAAAAAAAAAAAA".data⟩] true id (fun _ => 0) =
      Outcome.errorPage noTargetsMsg := by
  exact ⟨rfl, rfl⟩

/-- Claim C5 (amended): empty or malformed input (no valid sequence records)
is reported through the same no-candidates condition used for parseable
inputs with zero PAM-adjacent windows, not through a distinct ParseError. -/
theorem claim5_empty_input (modelAvailable : Bool)
    (rank : List Scored → List Scored) (predict : List ℚ → ℚ) :
    home [] modelAvailable rank predict = Outcome.errorPage noTargetsMsg := rfl

/-- Claim C9: the model-availability check runs only after candidates are
found; for every input whose scan yields zero candidates, `home` reports the
no-candidates condition whatever the model availability, in particular when
the model file is missing. -/
theorem claim9_no_candidates_before_model (records : List Sequence)
    (modelAvailable : Bool) (rank : List Scored → List Scored)
    (predict : List ℚ → ℚ) (h : scanCandidates records = []) :
    home records modelAvailable rank predict = Outcome.errorPage noTargetsMsg := by
  simp [home, h]

theorem claim9_no_candidates_before_model_witness :
    home [⟨"r".data, "AAAAAAAAAAAAAAAAAAAAAAA".data⟩] false id (fun _ => 0) =
      Outcome.errorPage noTargetsMsg :=
  claim9_no_candidates_before_model _ false id (fun _ => 0) (by decide)

/-- Claim C2 is false of the code: `qualified` is `len(top_candidates)` and
`top_candidates` is truncated by `.head(20)`, so with 21 qualifying
candidates the reported qualified count is 20, not a value exceeding 20. -/
theorem claim2_counterexample :
    (((List.replicate 21 sampleScored).map roundScored).filter
      displayFilter).length = 21 ∧
    qualifiedCount (List.replicate 21 sampleScored) = 20 := by
  constructor
  · rw [filter_replicate_sample]
    simp
  · rw [qualifiedCount, topCandidates, filter_replicate_sample, List.length_take]
    simp

/-- Claim C2 (amended): the reported qualified count equals the number of
displayed candidates, namely the minimum of the full qualifying count and
20; whenever more than 20 candidates qualify, the report says exactly 20. -/
theorem claim2_qualified_count_capped (ranked : List Scored) :
    qualifiedCount ranked =
      min (((ranked.map roundScored).filter displayFilter).length) 20 ∧
    (20 < ((ranked.map roundScored).filter displayFilter).length →
      qualifiedCount ranked = 20) := by
  have h : qualifiedCount ranked =
      min 20 (((ranked.map roundScored).filter displayFilter).length) := by
    rw [qualifiedCount, topCandidates, List.length_take]
  constructor
  · rw [h, Nat.min_comm]
  · intro hlt
    rw [h]
    omega

theorem claim2_qualified_count_capped_witness :
    qualifiedCount (List.replicate 21 sampleScored) =
      min (((List.replicate 21 sampleScored).map roundScored).filter
        displayFilter).length 20 ∧
    qualifiedCount (List.replicate 21 sampleScored) = 20 :=
  ⟨(claim2_qualified_count_capped _).1,
    (claim2_qualified_count_capped _).2 (by rw [filter_replicate_sample]; simp)⟩

/-- Claim C3 is false of the code: the qualification mask is applied to the
already rounded display copy, not to the full-precision values.  A candidate
with unrounded gc_content 39.999 — which the claim says must not qualify —
passes the filter, since 39.999 rounds to 40.0. -/
theorem claim3_counterexample :
    displayFilter (roundScored (⟨"r".data, 0, [], [], 0.9, 39.999⟩ : Scored)) = true ∧
    ¬ ((40 : ℚ) ≤ (39.999 : ℚ)) := by
  constructor
  · rw [roundScored]
    simp only
    rw [pandasRound_eq_of_ne 1 39.999 400 (by norm_num) (by norm_num), pandasRound4_09]
    rw [displayFilter]
    simp only [Bool.and_eq_true, decide_eq_true_eq]
    norm_num
  · norm_num

/-- Claim C3 (amended): qualification is decided on the ROUNDED display
values: a candidate qualifies iff `round4(predicted_efficiency) > 0.80` and
`40 ≤ round1(gc_content) ≤ 60`.  Efficiency exactly 0.80 does not qualify
and 0.8001 does; gc_content 40.0 qualifies — and so does 39.999, because it
rounds to 40.0. -/
theorem claim3_qualification_on_rounded (ranked : List Scored) :
    ((ranked.map roundScored).filter displayFilter =
      (ranked.filter (fun c => displayFilter (roundScored c))).map roundScored) ∧
    (∀ c : Scored, displayFilter (roundScored c) =
      (decide ((0.80 : ℚ) < pandasRound 4 c.Predicted_Efficiency) &&
        (decide ((40 : ℚ) ≤ pandasRound 1 c.GC_Content) &&
          decide (pandasRound 1 c.GC_Content ≤ (60 : ℚ))))) ∧
    displayFilter (roundScored (⟨[], 0, [], [], 0.80, 50⟩ : Scored)) = false ∧
    displayFilter (roundScored (⟨[], 0, [], [], 0.8001, 50⟩ : Scored)) = true ∧
    displayFilter (roundScored (⟨[], 0, [], [], 0.9, 40⟩ : Scored)) = true ∧
    displayFilter (roundScored (⟨[], 0, [], [], 0.9, 39.999⟩ : Scored)) = true := by
  refine ⟨?_, ?_, ?_, ?_, ?_, ?_⟩
  · rw [List.filter_map]
    rfl
  · intro c
    rw [displayFilter, roundScored]
  · rw [roundScored]
    simp only
    rw [pandasRound_eq_of_ne 4 0.80 8000 (by norm_num) (by norm_num),
      pandasRound_eq_of_ne 1 50 500 (by norm_num) (by norm_num)]
    rw [displayFilter]
    simp only [Bool.and_eq_true, decide_eq_true_eq]
    norm_num
  · rw [roundScored]
    simp only
    rw [pandasRound_eq_of_ne 4 0.8001 8001 (by norm_num) (by norm_num),
      pandasRound_eq_of_ne 1 50 500 (by norm_num) (by norm_num)]
    rw [displayFilter]
    simp only [Bool.and_eq_true, decide_eq_true_eq]
    norm_num
  · rw [roundScored]
    simp only
    rw [pandasRound4_09, pandasRound_eq_of_ne 1 40 400 (by norm_num) (by norm_num)]
    rw [displayFilter]
    simp only [Bool.and_eq_true, decide_eq_true_eq]
    norm_num
  · rw [roundScored]
    simp only
    rw [pandasRound4_09, pandasRound_eq_of_ne 1 39.999 400 (by norm_num) (by norm_num)]
    rw [displayFilter]
    simp only [Bool.and_eq_true, decide_eq_true_eq]
    norm_num

/-- Claim C6: for every 20-character window the feature encoder returns
`[gc_content, molecular_weight]` followed by the 20 per-base codes — 22
elements in total — with `gc_content = 100 * (count G + count C) / length`,
the molecular weight summed from the fixed table (unrecognized bases
contributing 0), and the fixed per-base code mapping (unrecognized bases
mapping to 0).  The encoder is a pure function of the window. -/
theorem claim6_feature_vector (s : List Char) (h : s.length = 20) :
    (encodeOne s).length = 22 ∧
    encodeOne s =
      (100 * ((s.count 'G' : ℚ) + (s.count 'C' : ℚ)) / 20) ::
        (s.map baseWeight).sum :: s.map baseCode ∧
    (baseWeight 'A' = 313.2 ∧ baseWeight 'T' = 304.2 ∧
      baseWeight 'G' = 329.2 ∧ baseWeight 'C' = 289.2 ∧ baseWeight 'N' = 0) ∧
    (baseCode 'A' = 1 ∧ baseCode 'T' = 2 ∧ baseCode 'G' = 3 ∧
      baseCode 'C' = 4 ∧ baseCode 'N' = 0) := by
  refine ⟨?_, ?_, ?_, ?_⟩
  · simp [encodeOne, h]
  · rw [encodeOne, List.cons_append, List.cons_append, List.nil_append]
    congr 1
    rw [calculate_gc, h]
    push_cast
    ring
  · refine ⟨rfl, rfl, rfl, rfl, rfl⟩
  · refine ⟨rfl, rfl, rfl, rfl, rfl⟩

theorem claim6_feature_vector_witness :
    (encodeOne ("ATGCATGCATGCATGCATGC".data)).length = 22 ∧
    encodeOne ("ATGCATGCATGCATGCATGC".data) =
      (100 * ((("ATGCATGCATGCATGCATGC".data).count 'G' : ℚ) +
        (("ATGCATGCATGCATGCATGC".data).count 'C' : ℚ)) / 20) ::
        (("ATGCATGCATGCATGCATGC".data).map baseWeight).sum ::
          ("ATGCATGCATGCATGCATGC".data).map baseCode ∧
    (baseWeight 'A' = 313.2 ∧ baseWeight 'T' = 304.2 ∧
      baseWeight 'G' = 329.2 ∧ baseWeight 'C' = 289.2 ∧ baseWeight 'N' = 0) ∧
    (baseCode 'A' = 1 ∧ baseCode 'T' = 2 ∧ baseCode 'G' = 3 ∧
      baseCode 'C' = 4 ∧ baseCode 'N' = 0) :=
  claim6_feature_vector ("ATGCATGCATGCATGCATGC".data) (by decide)

/-- Claim C8: the export carries the header columns in the exact order
`id,pos,seq,pam,Predicted_Efficiency,GC_Content`, serializes the full ranked
set at full precision, and re-parsing it recovers exactly the serialized
rows — ids, positions, windows, motifs and both scores. -/
theorem claim8_export_roundtrip (k : Nat) (rows : List Scored)
    (h : ∀ r ∈ rows, exportable k r) :
    (toCsvChars k rows).take headerChars.length = headerChars ∧
    parseCsv (toCsvChars k rows) = some rows := by
  constructor
  · rw [toCsvChars_eq_header_append]
    exact List.take_left _ _
  · exact parseCsv_toCsvChars k rows h

/-- The scored row used as the concrete export witness. -/
def sampleRow : Scored :=
  ⟨"r1".data, 0, "AAAAAAAAAAAAAAAAAAAA".data, "TGG".data, 1, 50⟩

theorem claim8_export_roundtrip_witness :
    (toCsvChars 4 [sampleRow]).take headerChars.length = headerChars ∧
    parseCsv (toCsvChars 4 [sampleRow]) = some [sampleRow] :=
  claim8_export_roundtrip 4 [sampleRow] (by
    intro r hr
    rw [List.mem_singleton] at hr
    subst hr
    rw [exportable, sampleRow]
    refine ⟨by decide, by decide, by decide, by norm_num, ?_, by norm_num, ?_⟩
    · norm_num
    · norm_num)

/-- Claim C10: requesting the download with no stored session results gives
a plain successful "No data available." response, and with a stored export
gives a csv attachment named genome_x_report.csv whose body is the stored
export. -/
theorem claim10_download (k : Nat) (rows : List Scored) :
    download_csv none = DownloadResponse.plain ("No data available.".data) ∧
    download_csv (some (toCsvChars k rows)) =
      DownloadResponse.attachment ("genome_x_report.csv".data) (toCsvChars k rows) := by
  constructor
  · rfl
  · rw [download_csv]
    rw [if_neg]
    rw [List.isEmpty_iff]
    exact toCsvChars_ne_nil k rows

end GenomeX
